import Mathlib

/-!
# Verification of `apps/desktop/src-tauri/icons/create_icons.py`

Shallow embedding of the placeholder-icon generator.  Bytes are modelled as
natural numbers kept below 256 by construction.  The script's library calls
are modelled as follows:

* `zlib.crc32` / `zlib.adler32`: the standard CRC-32 (reflected polynomial
  `0xEDB88320`) and Adler-32 checksums, computed bitwise over `Nat`.
* `zlib.compress(data, 9)`: modelled as a conformant zlib stream (RFC 1950)
  whose DEFLATE body (RFC 1951) consists of stored blocks; `zlibDecompress`
  is the conformant decoder for that subset (header check, block walk,
  Adler-32 verification).  The spec notes that only the lossless round-trip
  matters, not the particular compressed bytes.
* `struct.pack('>I', n)` / `'>IIBBBBB'`: big-endian packing that fails
  (`struct.error`) outside `[0, 2^32)`, modelled with `Option`.
* file writes and `print`: an explicit effect record `RunResult` listing the
  files written and the lines printed; `none` models an uncaught exception,
  in which case no file is opened and nothing is printed (the script only
  opens the output file after all packing succeeded).
-/

namespace CreateIcons

/-- Big-endian 4-byte encoding of `n` (the digits of `n % 2^32`). -/
def be32 (n : Nat) : List Nat :=
  [n / 16777216 % 256, n / 65536 % 256, n / 256 % 256, n % 256]

/-- Little-endian 2-byte encoding used by DEFLATE stored-block headers. -/
def le16 (n : Nat) : List Nat := [n % 256, n / 256]

/-- Big-endian interpretation of a byte list (what a decoder reads back). -/
def beToNat (l : List Nat) : Nat := l.foldl (fun acc b => acc * 256 + b) 0

theorem beToNat_be32 (n : Nat) (h : n < 4294967296) : beToNat (be32 n) = n := by
  simp only [be32, beToNat, List.foldl]
  omega

theorem be32_length (n : Nat) : (be32 n).length = 4 := rfl

theorem be32_bytes_lt (n : Nat) : ∀ b ∈ be32 n, b < 256 := by
  simp only [be32, List.mem_cons, List.not_mem_nil, or_false]
  rintro b (rfl | rfl | rfl | rfl) <;> omega

/-! ## CRC-32 (model of `zlib.crc32`) -/

/-- One bit step of the reflected CRC-32: shift right, conditionally xor the
reversed polynomial `0xEDB88320`. -/
def crcBit (x : Nat) : Nat :=
  if x % 2 = 1 then (x / 2) ^^^ 0xEDB88320 else x / 2

/-- Fold one byte into the CRC register (8 bit steps). -/
def crc32Step (c b : Nat) : Nat :=
  crcBit (crcBit (crcBit (crcBit (crcBit (crcBit (crcBit (crcBit (c ^^^ b))))))))

/-- Standard CRC-32 of a byte list, as computed by `zlib.crc32`. -/
def crc32 (l : List Nat) : Nat := (l.foldl crc32Step 0xFFFFFFFF) ^^^ 0xFFFFFFFF

theorem crcBit_lt (x : Nat) (h : x < 4294967296) : crcBit x < 4294967296 := by
  unfold crcBit
  split
  · have h1 : x / 2 < 2 ^ 32 := by omega
    have h2 : (0xEDB88320 : Nat) < 2 ^ 32 := by norm_num
    have := Nat.xor_lt_two_pow (n := 32) h1 h2
    simpa using this
  · omega

theorem crc32Step_lt (c b : Nat) (hc : c < 4294967296) (hb : b < 256) :
    crc32Step c b < 4294967296 := by
  have h0 : c ^^^ b < 4294967296 := by
    have h1 : c < 2 ^ 32 := by omega
    have h2 : b < 2 ^ 32 := by omega
    have := Nat.xor_lt_two_pow (n := 32) h1 h2
    simpa using this
  unfold crc32Step
  exact crcBit_lt _ (crcBit_lt _ (crcBit_lt _ (crcBit_lt _ (crcBit_lt _
    (crcBit_lt _ (crcBit_lt _ (crcBit_lt _ h0)))))))

theorem crc32_foldl_lt (l : List Nat) (hl : ∀ b ∈ l, b < 256) :
    ∀ c, c < 4294967296 → l.foldl crc32Step c < 4294967296 := by
  induction l with
  | nil => intro c hc; simpa using hc
  | cons a t ih =>
      intro c hc
      simp only [List.foldl_cons]
      exact ih (fun b hb => hl b (List.mem_cons_of_mem _ hb))
        _ (crc32Step_lt c a hc (hl a (List.mem_cons_self _ _)))

/-- The CRC register stays a 32-bit value on byte input, so the
`& 0xffffffff` in the script is the identity. -/
theorem crc32_lt (l : List Nat) (hl : ∀ b ∈ l, b < 256) : crc32 l < 4294967296 := by
  unfold crc32
  have h1 := crc32_foldl_lt l hl 0xFFFFFFFF (by norm_num)
  have h2 : l.foldl crc32Step 0xFFFFFFFF < 2 ^ 32 := by omega
  have h3 : (0xFFFFFFFF : Nat) < 2 ^ 32 := by norm_num
  have := Nat.xor_lt_two_pow (n := 32) h2 h3
  omega

/-! ## Adler-32 (the checksum a zlib stream carries) -/

/-- One byte of the Adler-32 state `(s1, s2)`. -/
def adlerStep (p : Nat × Nat) (b : Nat) : Nat × Nat :=
  ((p.1 + b) % 65521, (p.2 + (p.1 + b) % 65521) % 65521)

/-- Adler-32 checksum (initial state `(1, 0)`, result `s2 * 65536 + s1`). -/
def adler32 (l : List Nat) : Nat :=
  (l.foldl adlerStep (1, 0)).2 * 65536 + (l.foldl adlerStep (1, 0)).1

theorem adler_foldl_lt (l : List Nat) :
    ∀ p : Nat × Nat, p.1 < 65521 → p.2 < 65521 →
      (l.foldl adlerStep p).1 < 65521 ∧ (l.foldl adlerStep p).2 < 65521 := by
  induction l with
  | nil => intro p h1 h2; exact ⟨h1, h2⟩
  | cons a t ih =>
      intro p h1 h2
      simp only [List.foldl_cons]
      exact ih _ (Nat.mod_lt _ (by norm_num)) (Nat.mod_lt _ (by norm_num))

theorem adler32_lt (l : List Nat) : adler32 l < 4294967296 := by
  unfold adler32
  have := adler_foldl_lt l (1, 0) (by norm_num) (by norm_num)
  omega

/-! ## DEFLATE stored blocks and the zlib container
(model of `zlib.compress(raw_data, 9)` and of a conformant decompressor) -/

/-- DEFLATE body made of stored (uncompressed) blocks: each block is a
`BFINAL` byte, `LEN` (little-endian 16-bit), `NLEN` (its one's complement,
`65535 - LEN`), then `LEN` raw bytes.  Blocks start on byte boundaries, so
the bit-level format coincides with this byte layout. -/
def deflateStored (l : List Nat) : List Nat :=
  if l.length ≤ 65535 then
    1 :: (le16 l.length ++ le16 (65535 - l.length) ++ l)
  else
    0 :: (le16 65535 ++ le16 0 ++ (l.take 65535 ++ deflateStored (l.drop 65535)))
termination_by l.length
decreasing_by simp only [List.length_drop]; omega

/-- zlib stream: `CMF = 0x78` (deflate, 32K window), `FLG = 0x01`
(header checksum valid, no preset dictionary), DEFLATE body, big-endian
Adler-32 of the uncompressed data. -/
def zlibCompress (l : List Nat) : List Nat :=
  120 :: 1 :: (deflateStored l ++ be32 (adler32 l))

/-- Walk the stored blocks of a DEFLATE body, returning the decoded bytes
and the remaining input after the final block.  `fuel` bounds the number of
blocks; each block consumes at least five input bytes. -/
def inflateStored : Nat → List Nat → Option (List Nat × List Nat)
  | fuel + 1, bf :: a :: b :: c :: d :: rest =>
      if a + 256 * b ≤ rest.length ∧ c + 256 * d = 65535 - (a + 256 * b) then
        if bf % 2 = 1 then
          some (rest.take (a + 256 * b), rest.drop (a + 256 * b))
        else
          match inflateStored fuel (rest.drop (a + 256 * b)) with
          | some (out, r) => some (rest.take (a + 256 * b) ++ out, r)
          | none => none
      else none
  | _, _ => none

/-- Conformant zlib decoder for stored-block streams: checks the CMF/FLG
header (compression method 8, header checksum divisible by 31, no preset
dictionary), inflates the body, and verifies the trailing Adler-32. -/
def zlibDecompress (l : List Nat) : Option (List Nat) :=
  match l with
  | cmf :: flg :: rest =>
      if cmf % 16 = 8 ∧ (cmf * 256 + flg) % 31 = 0 ∧ flg / 32 % 2 = 0 then
        match inflateStored rest.length rest with
        | some (out, [w, x, y, z]) =>
            if beToNat [w, x, y, z] = adler32 out then some out else none
        | _ => none
      else none
  | _ => none

theorem le16_fst (n : Nat) : n % 256 + 256 * (n / 256) = n :=
  Nat.mod_add_div n 256

theorem deflateStored_length_lt (l : List Nat) :
    l.length + 5 ≤ (deflateStored l).length := by
  rw [deflateStored]
  split
  · simp [le16]
  · have h := deflateStored_length_lt (l.drop 65535)
    simp only [List.length_cons, List.length_append, List.length_take,
      List.length_drop, le16, List.length_cons] at *
    omega
termination_by l.length
decreasing_by simp only [List.length_drop]; omega

/-- Inflating the stored-block encoding of `l` recovers `l` and leaves any
trailing bytes untouched, given enough fuel. -/
theorem inflateStored_deflateStored :
    ∀ (fuel : Nat) (l tail : List Nat), l.length < fuel →
      inflateStored fuel (deflateStored l ++ tail) = some (l, tail) := by
  intro fuel
  induction fuel with
  | zero => intro l tail h; omega
  | succ n ih =>
      intro l tail h
      rw [deflateStored]
      by_cases hlen : l.length ≤ 65535
      · simp only [if_pos hlen, le16, List.cons_append, List.nil_append,
          List.append_assoc]
        rw [inflateStored]
        have h1 : l.length % 256 + 256 * (l.length / 256) = l.length := le16_fst _
        have h2 : (65535 - l.length) % 256 + 256 * ((65535 - l.length) / 256)
            = 65535 - l.length := le16_fst _
        rw [h1, h2]
        have hle : l.length ≤ (l ++ tail).length := by simp
        rw [if_pos ⟨hle, rfl⟩, if_pos (by norm_num)]
        rw [List.take_left, List.drop_left]
      · simp only [if_neg hlen, le16, List.cons_append, List.nil_append,
          List.append_assoc]
        rw [inflateStored]
        norm_num
        have hlt : (l.take 65535).length = 65535 :=
          by simp [List.length_take]; omega
        rw [List.take_left' hlt, List.drop_left' hlt]
        rw [ih (l.drop 65535) tail (by simp [List.length_drop]; omega)]
        refine ⟨?_, by simp [List.take_append_drop]⟩
        have hmin : (65535 : Nat) ⊓ l.length = 65535 := by omega
        simp [List.length_take, hmin]


/-- Lossless round-trip: a conformant zlib decoder applied to the modelled
`zlib.compress` output recovers the input exactly. -/
theorem zlibDecompress_zlibCompress (l : List Nat) :
    zlibDecompress (zlibCompress l) = some l := by
  have hfuel : l.length < (deflateStored l ++ be32 (adler32 l)).length := by
    have := deflateStored_length_lt l
    simp only [List.length_append, be32_length]
    omega
  have hadler : beToNat (be32 (adler32 l)) = adler32 l :=
    beToNat_be32 _ (adler32_lt l)
  unfold zlibCompress
  rw [zlibDecompress, if_pos (by norm_num)]
  rw [inflateStored_deflateStored _ l _ hfuel]
  simp only [be32] at hadler
  simp [be32, hadler]

/-! ## The encoder (`create_png`), embedded from the source -/

/-- The fixed fill color `r, g, b, a = 124, 58, 237, 255` (purple `#7C3AED`),
serialized as the 4 bytes appended per pixel by `bytes([r, g, b, a])`. -/
def pixelBytes : List Nat := [124, 58, 237, 255]

/-- One scanline of `raw_data`: the zero filter-type byte, then `width`
copies of the pixel bytes (the inner `for x in range(width)` loop). -/
def rowBytes (width : Nat) : List Nat :=
  0 :: (List.replicate width pixelBytes).flatten

/-- `raw_data`: `height` scanlines (the outer `for y in range(height)` loop).
Sizes enter through `range`, so a negative Python size gives zero
iterations; callers pass `Int.toNat` of the size. -/
def raw_data (width height : Nat) : List Nat :=
  (List.replicate height (rowBytes width)).flatten

/-- The 8-byte PNG signature `b'\x89PNG\r\n\x1a\n'`. -/
def signature : List Nat := [137, 80, 78, 71, 13, 10, 26, 10]

/-- ASCII bytes of the chunk tag `b'IHDR'`. -/
def ihdrTag : List Nat := [73, 72, 68, 82]

/-- ASCII bytes of the chunk tag `b'IDAT'`. -/
def idatTag : List Nat := [73, 68, 65, 84]

/-- ASCII bytes of the chunk tag `b'IEND'`. -/
def iendTag : List Nat := [73, 69, 78, 68]

/-- `struct.pack('>I', n)` on a Python int: fails with `struct.error`
outside `[0, 2^32)`. -/
def packU32BE (n : Int) : Option (List Nat) :=
  if 0 ≤ n ∧ n < 4294967296 then some (be32 n.toNat) else none

/-- `struct.pack('>I', len(compressed))`: the length of a Python bytes
object is a nonnegative int, so only the upper bound can fail. -/
def packLen (n : Nat) : Option (List Nat) :=
  if n < 4294967296 then some (be32 n) else none

/-- `ihdr_data = struct.pack('>IIBBBBB', width, height, 8, 6, 0, 0, 0)`:
width and height are both `size`; the five one-byte fields are the bit
depth 8, color type 6, and the three zero method bytes. -/
def ihdr_data (size : Int) : Option (List Nat) :=
  match packU32BE size, packU32BE size with
  | some w, some h => some (w ++ h ++ [8, 6, 0, 0, 0])
  | _, _ => none

/-- The IHDR payload for an in-range size (what `ihdr_data` returns). -/
def ihdrPayload (s : Nat) : List Nat := be32 s ++ be32 s ++ [8, 6, 0, 0, 0]

/-- The IDAT payload: `compressed = zlib.compress(raw_data, 9)`. -/
def idatPayload (s : Nat) : List Nat := zlibCompress (raw_data s s)

/-- The byte sequence `signature + ihdr + idat + iend` that `create_png`
writes for an in-range size: each chunk is its payload's length (big-endian
32-bit), the 4-byte tag, the payload, and `zlib.crc32(tag + payload) &
0xffffffff` (big-endian 32-bit).  The IHDR length field is the literal 13,
the IDAT one `len(compressed)`, the IEND one 0, as in the script. -/
def pngBytes (s : Nat) : List Nat :=
  signature
    ++ (be32 13 ++ ihdrTag ++ ihdrPayload s
        ++ be32 (crc32 (ihdrTag ++ ihdrPayload s) % 4294967296))
    ++ (be32 (idatPayload s).length ++ idatTag ++ idatPayload s
        ++ be32 (crc32 (idatTag ++ idatPayload s) % 4294967296))
    ++ (be32 0 ++ iendTag ++ be32 (crc32 iendTag % 4294967296))

/-- `create_png` up to (but not including) the file write: builds
`raw_data`, compresses it, packs the chunks.  `none` models an uncaught
exception; the first packing step that can fail is `ihdr_data` (line 29 of
the script), then `struct.pack('>I', len(compressed))` (line 35). -/
def create_png_bytes (size : Int) : Option (List Nat) :=
  match ihdr_data size, packLen (zlibCompress (raw_data size.toNat size.toNat)).length with
  | some _, some _ => some (pngBytes size.toNat)
  | _, _ => none

/-- Observable effects of one `create_png` call: the files written (name and
contents) and the lines printed, in order. -/
structure RunResult where
  files : List (String × List Nat)
  printed : List String
deriving DecidableEq

/-- Full `create_png(size, filename)`: on success it opens the file, writes
the byte sequence, and prints `f"Created {filename} ({size}x{size})"`.  On a
packing failure nothing has been written or printed, since the `open` on
line 42 comes after every fallible step. -/
def create_png (size : Int) (filename : String) : Option RunResult :=
  match create_png_bytes size with
  | none => none
  | some b => some ⟨[(filename, b)],
      ["Created " ++ filename ++ " (" ++ toString size ++ "x" ++ toString size ++ ")"]⟩

/-- The fixed `(size, filename)` table at the bottom of the script. -/
def sizes : List (Int × String) :=
  [(32, "32x32.png"), (128, "128x128.png"), (256, "128x128@2x.png"), (512, "icon.png")]

/-- `for size, name in sizes: create_png(size, name)`, accumulating effects. -/
def runList : List (Int × String) → Option RunResult
  | [] => some ⟨[], []⟩
  | (s, n) :: rest =>
      match create_png s n, runList rest with
      | some r, some r2 => some ⟨r.files ++ r2.files, r.printed ++ r2.printed⟩
      | _, _ => none

/-- The whole script run: the loop, then `print("Icons created successfully!")`. -/
def script_run : Option RunResult :=
  (runList sizes).map fun r => ⟨r.files, r.printed ++ ["Icons created successfully!"]⟩

/-! ## A conformant decoder side (independent of the construction) -/

/-- Group a decompressed scanline's bytes into 4-byte RGBA pixels. -/
def chunks4 : List Nat → List (List Nat)
  | a :: b :: c :: d :: rest => [a, b, c, d] :: chunks4 rest
  | _ => []

/-- Decode `height` scanlines of a raster buffer for an RGBA image of the
given width: each scanline must begin with the filter-type byte 0 ("None",
so reconstruction is the identity) followed by `4 * width` sample bytes. -/
def decodeRaster (width : Nat) : Nat → List Nat → Option (List (List (List Nat)))
  | 0, [] => some []
  | 0, _ :: _ => none
  | height + 1, buf =>
      match buf with
      | 0 :: rest =>
          if 4 * width ≤ rest.length then
            match decodeRaster width height (rest.drop (4 * width)) with
            | some rows => some (chunks4 (rest.take (4 * width)) :: rows)
            | none => none
          else none
      | _ => none

/-- Parse a sequence of PNG chunks: 4-byte big-endian payload length, 4-byte
tag, payload, 4-byte big-endian CRC, which must equal the standard CRC-32 of
tag + payload.  `fuel` bounds the number of chunks. -/
def parseChunks : Nat → List Nat → Option (List (List Nat × List Nat))
  | _, [] => some []
  | fuel + 1, l0 :: l1 :: l2 :: l3 :: t0 :: t1 :: t2 :: t3 :: rest =>
      if beToNat [l0, l1, l2, l3] + 4 ≤ rest.length then
        match (rest.drop (beToNat [l0, l1, l2, l3])).take 4 with
        | [c0, c1, c2, c3] =>
            if beToNat [c0, c1, c2, c3]
                = crc32 ([t0, t1, t2, t3] ++ rest.take (beToNat [l0, l1, l2, l3])) then
              match parseChunks fuel ((rest.drop (beToNat [l0, l1, l2, l3])).drop 4) with
              | some cs => some (([t0, t1, t2, t3], rest.take (beToNat [l0, l1, l2, l3])) :: cs)
              | none => none
            else none
        | _ => none
      else none
  | _, _ => none

/-- Parse a PNG file: check the 8-byte signature, then parse the chunks,
verifying every stored CRC. -/
def parsePng (l : List Nat) : Option (List (List Nat × List Nat)) :=
  if l.take 8 = signature then parseChunks l.length (l.drop 8) else none

/-! ## Structural lemmas about the raster buffer -/

theorem pixelBytes_length : pixelBytes.length = 4 := rfl

theorem replicate_pixel_flatten_length (w : Nat) :
    ((List.replicate w pixelBytes).flatten).length = 4 * w := by
  induction w with
  | zero => rfl
  | succ n ih =>
      simp only [List.replicate_succ, List.flatten_cons, List.length_append, ih,
        pixelBytes_length]
      omega

theorem rowBytes_length (w : Nat) : (rowBytes w).length = 1 + 4 * w := by
  simp only [rowBytes, List.length_cons, replicate_pixel_flatten_length]
  omega

/-- The Raster Buffer invariant: length = height × (1 + 4 × width). -/
theorem raw_data_length (w h : Nat) : (raw_data w h).length = h * (1 + 4 * w) := by
  induction h with
  | zero => simp [raw_data]
  | succ n ih =>
      simp only [raw_data, List.replicate_succ, List.flatten_cons,
        List.length_append] at *
      rw [ih, rowBytes_length]
      ring

theorem raw_data_bytes_lt (w h : Nat) : ∀ b ∈ raw_data w h, b < 256 := by
  intro b hb
  simp only [raw_data, List.mem_flatten, List.mem_replicate] at hb
  obtain ⟨row, ⟨-, rfl⟩, hbrow⟩ := hb
  simp only [rowBytes, List.mem_cons, List.mem_flatten, List.mem_replicate] at hbrow
  rcases hbrow with rfl | ⟨px, ⟨-, rfl⟩, hpx⟩
  · omega
  · simp only [pixelBytes, List.mem_cons, List.not_mem_nil, or_false] at hpx
    rcases hpx with rfl | rfl | rfl | rfl <;> omega

/-! ## Byte bounds and length bounds for the compressed stream -/

theorem le16_bytes_lt (n : Nat) (h : n ≤ 65535) : ∀ b ∈ le16 n, b < 256 := by
  simp only [le16, List.mem_cons, List.not_mem_nil, or_false]
  rintro b (rfl | rfl) <;> omega

theorem deflateStored_bytes_lt (l : List Nat) (hl : ∀ x ∈ l, x < 256) :
    ∀ b ∈ deflateStored l, b < 256 := by
  rw [deflateStored]
  split
  next hlen =>
    intro b hb
    rcases List.mem_cons.mp hb with rfl | hb1
    · omega
    rcases List.mem_append.mp hb1 with h1 | h2
    · rcases List.mem_append.mp h1 with h3 | h4
      · exact le16_bytes_lt _ hlen b h3
      · exact le16_bytes_lt _ (by omega) b h4
    · exact hl b h2
  next hlen =>
    intro b hb
    rcases List.mem_cons.mp hb with rfl | hb1
    · omega
    rcases List.mem_append.mp hb1 with h1 | h2
    · rcases List.mem_append.mp h1 with h3 | h4
      · exact le16_bytes_lt _ (by omega) b h3
      · exact le16_bytes_lt _ (by omega) b h4
    · rcases List.mem_append.mp h2 with h3 | h4
      · exact hl b (List.take_subset _ _ h3)
      · exact deflateStored_bytes_lt (l.drop 65535)
          (fun x hx => hl x (List.drop_subset _ _ hx)) b h4
termination_by l.length
decreasing_by simp only [List.length_drop]; omega

theorem zlibCompress_bytes_lt (l : List Nat) (hl : ∀ x ∈ l, x < 256) :
    ∀ b ∈ zlibCompress l, b < 256 := by
  intro b hb
  simp only [zlibCompress, List.mem_cons, List.mem_append] at hb
  rcases hb with rfl | rfl | h | h
  · omega
  · omega
  · exact deflateStored_bytes_lt l hl b h
  · exact be32_bytes_lt _ b h

theorem deflateStored_length_le (l : List Nat) :
    (deflateStored l).length ≤ 2 * l.length + 5 := by
  rw [deflateStored]
  split
  next hlen =>
    simp only [le16, List.length_cons, List.length_nil, List.length_append]
    omega
  next hlen =>
    have h := deflateStored_length_le (l.drop 65535)
    rw [List.length_drop] at h
    simp only [le16, List.length_cons, List.length_nil, List.length_append, List.length_take,
      List.length_drop]
    have hmin : (65535 : Nat) ⊓ l.length = 65535 := by omega
    rw [hmin]
    omega
termination_by l.length
decreasing_by simp only [List.length_drop]; omega

theorem zlibCompress_length_le (l : List Nat) :
    (zlibCompress l).length ≤ 2 * l.length + 11 := by
  have h := deflateStored_length_le l
  simp only [zlibCompress, List.length_cons, List.length_append, be32_length]
  omega

/-! ## The raster decoder recovers the uniform color -/

theorem chunks4_flatten (w : Nat) :
    chunks4 ((List.replicate w pixelBytes).flatten) = List.replicate w pixelBytes := by
  induction w with
  | zero => rfl
  | succ n ih =>
      simp only [List.replicate_succ, List.flatten_cons, pixelBytes,
        List.cons_append, List.nil_append]
      rw [chunks4, ← pixelBytes, ih]

theorem decodeRaster_raw_data (w h : Nat) :
    decodeRaster w h (raw_data w h)
      = some (List.replicate h (List.replicate w pixelBytes)) := by
  induction h with
  | zero => rfl
  | succ n ih =>
      have hsplit : raw_data w (n + 1) = rowBytes w ++ raw_data w n := by
        simp [raw_data, List.replicate_succ]
      have hflat : ((List.replicate w pixelBytes).flatten).length = 4 * w :=
        replicate_pixel_flatten_length w
      rw [hsplit]
      simp only [rowBytes, List.cons_append]
      rw [decodeRaster]
      rw [List.take_left' hflat, List.drop_left' hflat]
      have hle : 4 * w ≤ ((List.replicate w pixelBytes).flatten ++ raw_data w n).length := by
        simp [hflat]
      rw [if_pos hle, ih, chunks4_flatten, List.replicate_succ]

/-! ## Byte bounds for the chunk contents -/

theorem ihdrTag_bytes_lt : ∀ b ∈ ihdrTag, b < 256 := by
  simp only [ihdrTag, List.mem_cons, List.not_mem_nil, or_false]
  rintro b (rfl | rfl | rfl | rfl) <;> omega

theorem idatTag_bytes_lt : ∀ b ∈ idatTag, b < 256 := by
  simp only [idatTag, List.mem_cons, List.not_mem_nil, or_false]
  rintro b (rfl | rfl | rfl | rfl) <;> omega

theorem iendTag_bytes_lt : ∀ b ∈ iendTag, b < 256 := by
  simp only [iendTag, List.mem_cons, List.not_mem_nil, or_false]
  rintro b (rfl | rfl | rfl | rfl) <;> omega

theorem ihdrPayload_bytes_lt (s : Nat) : ∀ b ∈ ihdrPayload s, b < 256 := by
  intro b hb
  rcases List.mem_append.mp hb with h | h
  · rcases List.mem_append.mp h with h1 | h1
    · exact be32_bytes_lt _ b h1
    · exact be32_bytes_lt _ b h1
  · simp only [List.mem_cons, List.not_mem_nil, or_false] at h
    rcases h with rfl | rfl | rfl | rfl | rfl <;> omega

theorem ihdrChunk_crc_lt (s : Nat) : crc32 (ihdrTag ++ ihdrPayload s) < 4294967296 := by
  refine crc32_lt _ ?_
  intro b hb
  rcases List.mem_append.mp hb with h | h
  · exact ihdrTag_bytes_lt b h
  · exact ihdrPayload_bytes_lt s b h

theorem idatChunk_crc_lt (s : Nat) : crc32 (idatTag ++ idatPayload s) < 4294967296 := by
  refine crc32_lt _ ?_
  intro b hb
  rcases List.mem_append.mp hb with h | h
  · exact idatTag_bytes_lt b h
  · exact zlibCompress_bytes_lt _ (raw_data_bytes_lt s s) b h

theorem iendChunk_crc_lt : crc32 iendTag < 4294967296 :=
  crc32_lt _ iendTag_bytes_lt

theorem ihdrPayload_length (s : Nat) : (ihdrPayload s).length = 13 := rfl

/-! ## The chunk parser accepts the produced chunks -/

theorem take4_cons (a b c d : Nat) (r : List Nat) :
    (a :: b :: c :: d :: r).take 4 = [a, b, c, d] := rfl

theorem drop4_cons (a b c d : Nat) (r : List Nat) :
    (a :: b :: c :: d :: r).drop 4 = r := rfl

/-- Parsing one well-formed chunk (length field = payload length, stored CRC
= masked CRC-32 of tag + payload) consumes it and continues with the rest. -/
theorem parseChunks_cons (fuel t0 t1 t2 t3 n c : Nat) (p rest : List Nat)
    (hn : n = p.length) (hp : p.length < 4294967296)
    (hc : c = crc32 ([t0, t1, t2, t3] ++ p))
    (hcrc : crc32 ([t0, t1, t2, t3] ++ p) < 4294967296) :
    parseChunks (fuel + 1)
      (be32 n ++ ([t0, t1, t2, t3] ++ (p ++ (be32 (c % 4294967296) ++ rest))))
      = (parseChunks fuel rest).map (([t0, t1, t2, t3], p) :: ·) := by
  subst hn hc
  simp only [List.cons_append, List.nil_append] at hcrc ⊢
  have hbe : beToNat (be32 p.length) = p.length := beToNat_be32 _ hp
  have hbc : beToNat (be32 (crc32 (t0 :: t1 :: t2 :: t3 :: p) % 4294967296))
      = crc32 (t0 :: t1 :: t2 :: t3 :: p) % 4294967296 := beToNat_be32 _ (by omega)
  simp only [be32] at hbe hbc
  simp only [be32, List.cons_append, List.nil_append]
  rw [parseChunks, hbe]
  have hle : p.length + 4
      ≤ (p ++ crc32 (t0 :: t1 :: t2 :: t3 :: p) % 4294967296 / 16777216 % 256
          :: crc32 (t0 :: t1 :: t2 :: t3 :: p) % 4294967296 / 65536 % 256
          :: crc32 (t0 :: t1 :: t2 :: t3 :: p) % 4294967296 / 256 % 256
          :: crc32 (t0 :: t1 :: t2 :: t3 :: p) % 4294967296 % 256 :: rest).length := by
    simp only [List.length_append, List.length_cons]
    omega
  rw [if_pos hle, List.drop_left, List.take_left, take4_cons, drop4_cons]
  have hmod : crc32 (t0 :: t1 :: t2 :: t3 :: p) % 4294967296
      = crc32 ([t0, t1, t2, t3] ++ p) := by
    simp only [List.cons_append, List.nil_append]
    exact Nat.mod_eq_of_lt hcrc
  cases hrest : parseChunks fuel rest with
  | none => simp [hbc, hmod, hrest]
  | some cs =>
      simp [hbc, hmod, hrest]
      exact beToNat_be32 _ hcrc

theorem signature_length : signature.length = 8 := rfl

theorem parseChunks_nil (fuel : Nat) : parseChunks fuel [] = some [] := by
  cases fuel <;> rfl

theorem pngBytes_length (s : Nat) :
    (pngBytes s).length = 57 + (idatPayload s).length := by
  simp only [pngBytes, List.length_append, signature_length, be32_length,
    ihdrPayload_length, List.length_nil, ihdrTag, idatTag, iendTag,
    List.length_cons]
  omega

/-- The conformant chunk-level parser accepts the produced file and returns
exactly the three chunks, after recomputing and checking every CRC. -/
theorem parsePng_pngBytes (s : Nat) (hc : (idatPayload s).length < 4294967296) :
    parsePng (pngBytes s)
      = some [(ihdrTag, ihdrPayload s), (idatTag, idatPayload s), (iendTag, [])] := by
  have hrest : pngBytes s
      = signature ++ (be32 13 ++ (ihdrTag ++ (ihdrPayload s
          ++ (be32 (crc32 (ihdrTag ++ ihdrPayload s) % 4294967296)
          ++ (be32 (idatPayload s).length ++ (idatTag ++ (idatPayload s
          ++ (be32 (crc32 (idatTag ++ idatPayload s) % 4294967296)
          ++ (be32 0 ++ (iendTag ++ (be32 (crc32 iendTag % 4294967296)
          ++ ([] : List Nat)))))))))))) := by
    simp [pngBytes, List.append_assoc]
  rw [parsePng, pngBytes_length, hrest, List.take_left' signature_length,
    List.drop_left' signature_length, if_pos rfl]
  rw [(by omega : 57 + (idatPayload s).length = 56 + (idatPayload s).length + 1)]
  simp only [ihdrTag, idatTag, iendTag]
  rw [parseChunks_cons (56 + (idatPayload s).length) 73 72 68 82 13 _
    (ihdrPayload s) _ rfl (by rw [ihdrPayload_length]; norm_num) rfl (ihdrChunk_crc_lt s)]
  rw [(by omega : 56 + (idatPayload s).length = 55 + (idatPayload s).length + 1)]
  rw [parseChunks_cons (55 + (idatPayload s).length) 73 68 65 84
    (idatPayload s).length _ (idatPayload s) _ rfl hc rfl (idatChunk_crc_lt s)]
  rw [(by omega : 55 + (idatPayload s).length = 54 + (idatPayload s).length + 1)]
  rw [← List.nil_append (be32 (crc32 [73, 69, 78, 68] % 4294967296) ++ ([] : List Nat))]
  rw [parseChunks_cons (54 + (idatPayload s).length) 73 69 78 68 0
    (crc32 [73, 69, 78, 68]) [] _ rfl (by norm_num) (by simp) (by simpa using iendChunk_crc_lt)]
  rw [parseChunks_nil]
  rfl

/-! ## Success and inversion for the packing steps -/

theorem ihdr_data_def (size : Int) :
    ihdr_data size
      = match packU32BE size, packU32BE size with
        | some w, some h => some (w ++ h ++ [8, 6, 0, 0, 0])
        | _, _ => none := rfl

theorem create_png_bytes_def (size : Int) :
    create_png_bytes size
      = match ihdr_data size,
          packLen (zlibCompress (raw_data size.toNat size.toNat)).length with
        | some _, some _ => some (pngBytes size.toNat)
        | _, _ => none := rfl

theorem packU32BE_natCast (s : Nat) (hs : s < 4294967296) :
    packU32BE (s : Int) = some (be32 s) := by
  have h1 : (0 : Int) ≤ (s : Int) := Int.natCast_nonneg s
  have h2 : (s : Int) < 4294967296 := by exact_mod_cast hs
  simp only [packU32BE, h1, h2, and_self, if_true, Int.toNat_natCast]

theorem ihdr_data_eq (s : Nat) (hs : s < 4294967296) :
    ihdr_data (s : Int) = some (ihdrPayload s) := by
  rw [ihdr_data_def, packU32BE_natCast s hs]
  rfl

theorem packLen_eq (n : Nat) (h : n < 4294967296) : packLen n = some (be32 n) := by
  simp only [packLen, h, if_true]

theorem create_png_bytes_eq (s : Nat) (hs : s < 4294967296)
    (hc : (zlibCompress (raw_data s s)).length < 4294967296) :
    create_png_bytes (s : Int) = some (pngBytes s) := by
  rw [create_png_bytes_def]
  rw [show ((s : Int).toNat) = s from Int.toNat_natCast s]
  rw [ihdr_data_eq s hs, packLen_eq _ hc]

theorem packU32BE_inv (n : Int) (w : List Nat) (h : packU32BE n = some w) :
    0 ≤ n ∧ n < 4294967296 := by
  unfold packU32BE at h
  split at h
  · assumption
  · exact absurd h (by simp)

theorem create_png_bytes_inv (s : Nat) (file : List Nat)
    (h : create_png_bytes (s : Int) = some file) :
    s < 4294967296 ∧ (zlibCompress (raw_data s s)).length < 4294967296
      ∧ file = pngBytes s := by
  rw [create_png_bytes_def] at h
  rw [show ((s : Int).toNat) = s from Int.toNat_natCast s] at h
  cases hi : ihdr_data (s : Int) with
  | none => rw [hi] at h; simp at h
  | some ih =>
      cases hp : packLen (zlibCompress (raw_data s s)).length with
      | none => rw [hi, hp] at h; simp at h
      | some lb =>
          rw [hi, hp] at h
          simp only [Option.some_inj] at h
          refine ⟨?_, ?_, h.symm⟩
          · rw [ihdr_data_def] at hi
            cases hq : packU32BE (s : Int) with
            | none => rw [hq] at hi; simp at hi
            | some w =>
                have := packU32BE_inv _ _ hq
                exact_mod_cast this.2
          · unfold packLen at hp
            split at hp
            · assumption
            · exact absurd hp (by simp)

/-! ## Helpers for concrete sizes and for the driver -/

theorem compressed_length_lt (s : Nat) (hs : s ≤ 16384) :
    (zlibCompress (raw_data s s)).length < 4294967296 := by
  have h1 := zlibCompress_length_le (raw_data s s)
  rw [raw_data_length] at h1
  have h2 : s * (1 + 4 * s) ≤ 16384 * (1 + 4 * 16384) :=
    Nat.mul_le_mul hs (by omega)
  omega

theorem create_png_def (size : Int) (filename : String) :
    create_png size filename
      = match create_png_bytes size with
        | none => none
        | some b => some ⟨[(filename, b)],
            ["Created " ++ filename ++ " (" ++ toString size ++ "x"
              ++ toString size ++ ")"]⟩ := rfl

theorem create_png_eq (s : Nat) (hs : s ≤ 16384) (fn : String) :
    create_png (s : Int) fn
      = some ⟨[(fn, pngBytes s)],
          ["Created " ++ fn ++ " (" ++ toString (s : Int) ++ "x"
            ++ toString (s : Int) ++ ")"]⟩ := by
  rw [create_png_def,
    create_png_bytes_eq s (by omega) (compressed_length_lt s hs)]

theorem packU32BE_neg (s : Int) (h : s < 0) : packU32BE s = none := by
  unfold packU32BE
  rw [if_neg (by omega)]

theorem ihdr_data_neg (s : Int) (h : s < 0) : ihdr_data s = none := by
  rw [ihdr_data_def, packU32BE_neg s h]

theorem create_png_bytes_neg (s : Int) (h : s < 0) : create_png_bytes s = none := by
  rw [create_png_bytes_def, ihdr_data_neg s h]

theorem create_png_neg (s : Int) (fn : String) (h : s < 0) :
    create_png s fn = none := by
  rw [create_png_def, create_png_bytes_neg s h]

theorem runList_nil : runList [] = some ⟨[], []⟩ := rfl

theorem runList_cons (s : Int) (n : String) (rest : List (Int × String)) :
    runList ((s, n) :: rest)
      = match create_png s n, runList rest with
        | some r, some r2 => some ⟨r.files ++ r2.files, r.printed ++ r2.printed⟩
        | _, _ => none := rfl

theorem script_run_def :
    script_run
      = (runList sizes).map fun r => ⟨r.files, r.printed ++ ["Icons created successfully!"]⟩ := rfl

/-! ## The claims -/

/-- **C1.** For every positive size `S` for which `create_png` produces a
file, the IDAT payload (which the chunk parser extracts from the file)
zlib-decompresses exactly to the Raster Buffer `raw_data S S`; the buffer
length is `S * (1 + 4 * S)`; and a conformant raster decoder recovers an
`S × S` grid in which every pixel is the color `(124, 58, 237, 255)`. -/
theorem C1_idat_decompresses_to_raster (S : Nat) (file : List Nat)
    (hS : 0 < S) (h : create_png_bytes (S : Int) = some file) :
    parsePng file
        = some [(ihdrTag, ihdrPayload S), (idatTag, idatPayload S), (iendTag, [])]
      ∧ zlibDecompress (idatPayload S) = some (raw_data S S)
      ∧ (raw_data S S).length = S * (1 + 4 * S)
      ∧ decodeRaster S S (raw_data S S)
          = some (List.replicate S (List.replicate S pixelBytes))
      ∧ pixelBytes = [124, 58, 237, 255] := by
  obtain ⟨hs, hc, rfl⟩ := create_png_bytes_inv S file h
  exact ⟨parsePng_pngBytes S hc, zlibDecompress_zlibCompress _,
    raw_data_length S S, decodeRaster_raw_data S S, rfl⟩

/-- **C1** witness at `S = 2`. -/
theorem C1_witness :
    parsePng (pngBytes 2)
        = some [(ihdrTag, ihdrPayload 2), (idatTag, idatPayload 2), (iendTag, [])]
      ∧ zlibDecompress (idatPayload 2) = some (raw_data 2 2)
      ∧ (raw_data 2 2).length = 2 * (1 + 4 * 2)
      ∧ decodeRaster 2 2 (raw_data 2 2)
          = some (List.replicate 2 (List.replicate 2 pixelBytes))
      ∧ pixelBytes = [124, 58, 237, 255] :=
  C1_idat_decompresses_to_raster 2 (pngBytes 2) (by norm_num)
    (create_png_bytes_eq 2 (by norm_num) (compressed_length_lt 2 (by norm_num)))

/-- **C2.** For every positive size `S` for which `create_png` produces a
file, the header payload packed by `ihdr_data` is exactly the 13 bytes
`width (4-byte big-endian) ++ height (4-byte big-endian) ++ [8, 6, 0, 0, 0]`
with width = height = `S`, so reading the two big-endian fields back gives
`S` for both decoded width and height. -/
theorem C2_header_fields (S : Nat) (file : List Nat)
    (hS : 0 < S) (h : create_png_bytes (S : Int) = some file) :
    ihdr_data (S : Int) = some (ihdrPayload S)
      ∧ (ihdrPayload S).length = 13
      ∧ ihdrPayload S = be32 S ++ be32 S ++ [8, 6, 0, 0, 0]
      ∧ beToNat ((ihdrPayload S).take 4) = S
      ∧ beToNat (((ihdrPayload S).drop 4).take 4) = S := by
  obtain ⟨hs, hc, rfl⟩ := create_png_bytes_inv S file h
  have ht : (ihdrPayload S).take 4 = be32 S := by
    show (be32 S ++ be32 S ++ [8, 6, 0, 0, 0]).take 4 = be32 S
    rw [List.append_assoc, List.take_left' (be32_length S)]
  have hd : (ihdrPayload S).drop 4 = be32 S ++ [8, 6, 0, 0, 0] := by
    show (be32 S ++ be32 S ++ [8, 6, 0, 0, 0]).drop 4 = be32 S ++ [8, 6, 0, 0, 0]
    rw [List.append_assoc, List.drop_left' (be32_length S)]
  refine ⟨ihdr_data_eq S hs, ihdrPayload_length S, rfl, ?_, ?_⟩
  · rw [ht]
    exact beToNat_be32 S hs
  · rw [hd, List.take_left' (be32_length S)]
    exact beToNat_be32 S hs

/-- **C2** witness at `S = 3`. -/
theorem C2_witness :
    ihdr_data (3 : Int) = some (ihdrPayload 3)
      ∧ (ihdrPayload 3).length = 13
      ∧ ihdrPayload 3 = be32 3 ++ be32 3 ++ [8, 6, 0, 0, 0]
      ∧ beToNat ((ihdrPayload 3).take 4) = 3
      ∧ beToNat (((ihdrPayload 3).drop 4).take 4) = 3 :=
  C2_header_fields 3 (pngBytes 3) (by norm_num)
    (create_png_bytes_eq 3 (by norm_num) (compressed_length_lt 3 (by norm_num)))

/-- **C3.** For every positive size `S` for which `create_png` produces a
file, the file is exactly the 8-byte signature followed by the three chunks
IHDR, IDAT, IEND in order, each chunk being (4-byte big-endian payload
length, 4-byte ASCII tag, payload, 4-byte big-endian CRC), with the IHDR
length field the literal 13 (= the actual payload length), the IDAT one the
compressed-stream length, and the IEND one 0. -/
theorem C3_chunk_layout (S : Nat) (file : List Nat)
    (hS : 0 < S) (h : create_png_bytes (S : Int) = some file) :
    file = signature
        ++ (be32 13 ++ ihdrTag ++ ihdrPayload S
            ++ be32 (crc32 (ihdrTag ++ ihdrPayload S) % 4294967296))
        ++ (be32 (idatPayload S).length ++ idatTag ++ idatPayload S
            ++ be32 (crc32 (idatTag ++ idatPayload S) % 4294967296))
        ++ (be32 0 ++ iendTag ++ be32 (crc32 iendTag % 4294967296))
      ∧ signature = [137, 80, 78, 71, 13, 10, 26, 10]
      ∧ (ihdrPayload S).length = 13
      ∧ ([] : List Nat).length = 0 := by
  obtain ⟨hs, hc, rfl⟩ := create_png_bytes_inv S file h
  exact ⟨rfl, rfl, ihdrPayload_length S, rfl⟩

/-- **C3** witness at `S = 4`. -/
theorem C3_witness :
    pngBytes 4 = signature
        ++ (be32 13 ++ ihdrTag ++ ihdrPayload 4
            ++ be32 (crc32 (ihdrTag ++ ihdrPayload 4) % 4294967296))
        ++ (be32 (idatPayload 4).length ++ idatTag ++ idatPayload 4
            ++ be32 (crc32 (idatTag ++ idatPayload 4) % 4294967296))
        ++ (be32 0 ++ iendTag ++ be32 (crc32 iendTag % 4294967296))
      ∧ signature = [137, 80, 78, 71, 13, 10, 26, 10]
      ∧ (ihdrPayload 4).length = 13
      ∧ ([] : List Nat).length = 0 :=
  C3_chunk_layout 4 (pngBytes 4) (by norm_num)
    (create_png_bytes_eq 4 (by norm_num) (compressed_length_lt 4 (by norm_num)))

/-- **C4.** For every positive size `S` for which `create_png` produces a
file, the conformant chunk verifier `parsePng` — which recomputes the
standard CRC-32 over each chunk's tag + payload and compares it with the
stored 4-byte value — accepts the file and returns the three chunks; and
the stored (masked) CRC values coincide with the unmasked standard CRC-32
values, since those are 32-bit already. -/
theorem C4_crc_valid (S : Nat) (file : List Nat)
    (hS : 0 < S) (h : create_png_bytes (S : Int) = some file) :
    parsePng file
        = some [(ihdrTag, ihdrPayload S), (idatTag, idatPayload S), (iendTag, [])]
      ∧ crc32 (ihdrTag ++ ihdrPayload S) % 4294967296
          = crc32 (ihdrTag ++ ihdrPayload S)
      ∧ crc32 (idatTag ++ idatPayload S) % 4294967296
          = crc32 (idatTag ++ idatPayload S)
      ∧ crc32 iendTag % 4294967296 = crc32 iendTag := by
  obtain ⟨hs, hc, rfl⟩ := create_png_bytes_inv S file h
  exact ⟨parsePng_pngBytes S hc, Nat.mod_eq_of_lt (ihdrChunk_crc_lt S),
    Nat.mod_eq_of_lt (idatChunk_crc_lt S), Nat.mod_eq_of_lt iendChunk_crc_lt⟩

/-- **C4** witness at `S = 5`. -/
theorem C4_witness :
    parsePng (pngBytes 5)
        = some [(ihdrTag, ihdrPayload 5), (idatTag, idatPayload 5), (iendTag, [])]
      ∧ crc32 (ihdrTag ++ ihdrPayload 5) % 4294967296
          = crc32 (ihdrTag ++ ihdrPayload 5)
      ∧ crc32 (idatTag ++ idatPayload 5) % 4294967296
          = crc32 (idatTag ++ idatPayload 5)
      ∧ crc32 iendTag % 4294967296 = crc32 iendTag :=
  C4_crc_valid 5 (pngBytes 5) (by norm_num)
    (create_png_bytes_eq 5 (by norm_num) (compressed_length_lt 5 (by norm_num)))

/-- **C5** counterexample: the claim says every size ≤ 0 fails with an
invalid-argument condition rather than producing an output file, but
`create_png(0, ...)` succeeds and produces an output file. -/
theorem C5_counterexample : create_png 0 "icon.png" ≠ none := by
  have h := create_png_eq 0 (by norm_num) "icon.png"
  norm_num at h
  rw [h]
  simp

/-- **C5 (amended).** For every negative integer size, `create_png` fails
with an invalid-argument condition (the `struct.pack` range check) and
produces no output file; size 0 is not rejected and does produce an output
file.  (Non-integer sizes are outside the integer embedding; in the script
they also fail, in `range`.) -/
theorem C5_negative_fails (s : Int) (fn : String) :
    (s < 0 → create_png s fn = none) ∧ (s = 0 → create_png s fn ≠ none) := by
  refine ⟨fun hneg => create_png_neg s fn hneg, fun h0 => ?_⟩
  subst h0
  have h := create_png_eq 0 (by norm_num) fn
  norm_num at h
  rw [h]
  simp

/-- **C5** witness at `s = -7` and `s = 0`. -/
theorem C5_witness :
    create_png (-7) "icon.png" = none ∧ create_png 0 "icon.png" ≠ none :=
  ⟨(C5_negative_fails (-7) "icon.png").1 (by norm_num),
   (C5_negative_fails 0 "icon.png").2 rfl⟩

/-- **C6.** The produced byte contents are a deterministic function of the
size alone: two calls with the same size write byte-identical file
contents whatever the filenames, hence the decoded images are
pixel-for-pixel identical. -/
theorem C6_deterministic (s : Int) (fn₁ fn₂ : String) :
    ((create_png s fn₁).map fun r => r.files.map Prod.snd)
      = ((create_png s fn₂).map fun r => r.files.map Prod.snd) := by
  rw [create_png_def, create_png_def]
  cases create_png_bytes s <;> rfl

/-- **C7** counterexample: the claim says invoking the encode operation
creates no file and prints nothing, but `create_png(32, "32x32.png")`
records one file write and one printed line. -/
theorem C7_counterexample :
    (create_png 32 "32x32.png").map (fun r => (r.files.map Prod.fst, r.printed))
      = some (["32x32.png"], ["Created 32x32.png (32x32)"]) := by
  have h := create_png_eq 32 (by norm_num) "32x32.png"
  norm_num at h
  rw [h]
  rfl

/-- **C7 (amended).** The byte-sequence construction inside `create_png` is
a pure function of the size alone (`create_png_bytes` takes only the size);
the side effects of a successful call are exactly one write of those bytes
to the given filename and one printed line. -/
theorem C7_effects_exactly_one_write (s : Int) (fn : String) (r : RunResult)
    (h : create_png s fn = some r) :
    r.files = [(fn, (create_png_bytes s).getD [])]
      ∧ r.printed
          = ["Created " ++ fn ++ " (" ++ toString s ++ "x" ++ toString s ++ ")"] := by
  rw [create_png_def] at h
  cases hb : create_png_bytes s with
  | none => rw [hb] at h; simp at h
  | some b =>
      rw [hb] at h
      simp only [Option.some_inj] at h
      subst h
      simp [hb]

/-- **C7** witness at size 1, filename `a.png`. -/
theorem C7_witness :
    (⟨[("a.png", pngBytes 1)], ["Created a.png (1x1)"]⟩ : RunResult).files
      = [("a.png", (create_png_bytes 1).getD [])] := by
  have h := create_png_eq 1 (by norm_num) "a.png"
  norm_num at h
  have h1 : create_png 1 "a.png"
      = some ⟨[("a.png", pngBytes 1)], ["Created a.png (1x1)"]⟩ := by
    rw [h]
    rfl
  exact (C7_effects_exactly_one_write 1 "a.png" _ h1).1

/-- **C8.** One run of the driver performs exactly four encode-then-write
operations, in order, for `(32, "32x32.png")`, `(128, "128x128.png")`,
`(256, "128x128@2x.png")`, `(512, "icon.png")`, writing for each the bytes
encoded from the size (with the fixed color baked into `raw_data`), in a
single linear pass, printing one completion line per file and one final
summary line. -/
theorem C8_driver_run :
    pixelBytes = [124, 58, 237, 255]
      ∧ script_run = some ⟨
          [("32x32.png", pngBytes 32), ("128x128.png", pngBytes 128),
           ("128x128@2x.png", pngBytes 256), ("icon.png", pngBytes 512)],
          ["Created 32x32.png (32x32)", "Created 128x128.png (128x128)",
           "Created 128x128@2x.png (256x256)", "Created icon.png (512x512)",
           "Icons created successfully!"]⟩ := by
  have e32 := create_png_eq 32 (by norm_num) "32x32.png"
  have e128 := create_png_eq 128 (by norm_num) "128x128.png"
  have e256 := create_png_eq 256 (by norm_num) "128x128@2x.png"
  have e512 := create_png_eq 512 (by norm_num) "icon.png"
  norm_num at e32 e128 e256 e512
  refine ⟨rfl, ?_⟩
  rw [script_run_def,
    show sizes = [(32, "32x32.png"), (128, "128x128.png"),
      (256, "128x128@2x.png"), (512, "icon.png")] from rfl]
  rw [runList_cons, e32, runList_cons, e128, runList_cons, e256,
    runList_cons, e512, runList_nil]
  rfl

/-- **C9.** For every negative integer size, the failing step is the header
packing (`struct.pack` cannot encode a negative width as an unsigned
big-endian 32-bit field): `ihdr_data` fails, `create_png` returns no byte
sequence, and no file write or print is recorded — the file is only opened
after packing, so the state is unchanged on this error. -/
theorem C9_negative_no_write (s : Int) (fn : String) (hneg : s < 0) :
    ihdr_data s = none ∧ create_png_bytes s = none ∧ create_png s fn = none :=
  ⟨ihdr_data_neg s hneg, create_png_bytes_neg s hneg, create_png_neg s fn hneg⟩

/-- **C9** witness at `s = -1`. -/
theorem C9_witness :
    ihdr_data (-1) = none ∧ create_png_bytes (-1) = none
      ∧ create_png (-1) "32x32.png" = none :=
  C9_negative_no_write (-1) "32x32.png" (by norm_num)

/-- **C10.** For size 0, `create_png` completes without error: the Raster
Buffer is empty, the IHDR payload declares width = height = 0, the IDAT
payload is the compression of the empty byte string, and a file with the
full signature-plus-three-chunks byte sequence is written. -/
theorem C10_size_zero (fn : String) :
    raw_data 0 0 = []
      ∧ create_png_bytes 0 = some (pngBytes 0)
      ∧ idatPayload 0 = zlibCompress []
      ∧ beToNat ((ihdrPayload 0).take 4) = 0
      ∧ beToNat (((ihdrPayload 0).drop 4).take 4) = 0
      ∧ (create_png 0 fn).map (fun r => r.files) = some [(fn, pngBytes 0)] := by
  have h := create_png_eq 0 (by norm_num) fn
  norm_num at h
  have hb := create_png_bytes_eq 0 (by norm_num) (compressed_length_lt 0 (by norm_num))
  norm_num at hb
  refine ⟨rfl, hb, rfl, rfl, rfl, ?_⟩
  rw [h]
  rfl

end CreateIcons
